import Mathlib

/-!
Shallow embedding of the broadcast delivery engine of this repository
(`run_broadcast`, `manage_broadcast`, `save_broadcast_history`,
`pro_callback` / `process_broadcast`, the simple-broadcast loop of
`admin_broadcast_flow`, and the CSV export handler `export_cb`),
together with proofs of the specification claims about them.

External collaborators (the transport client, the SQL store, the
Telegram UI) are modelled as oracles: the transport outcome of the
i-th recipient attempt is a boolean `sendOk i`, the outcome of the
i-th progress-message edit is `editOk i`, and the registry lookups
`pro_states.get(admin_id)` performed by the worker are a schedule
`stoppedObs` / `pausedObs`.
-/

namespace Broadcast

/-- A row of the `users` table as read by the broadcast flows:
`SELECT tg_id FROM users WHERE banned=FALSE`. -/
structure User where
  tgId : Int
  banned : Bool
deriving DecidableEq

/-- The Recipient Source: `rows = fetch("SELECT tg_id FROM users WHERE banned=FALSE")`;
`tg_ids = [r["tg_id"] for r in rows]` (both `run_broadcast` and
`admin_broadcast_flow` run this exact query). -/
def resolveRecipients (users : List User) : List Int :=
  (users.filter (fun u => !u.banned)).map (fun u => u.tgId)

/-- The fields of the aiogram `Message` payload that the engine reads:
`content_type`, `text`, `caption`. -/
structure Payload where
  contentType : String
  text : Option String
  caption : Option String
deriving DecidableEq

/-- Python truthiness of an optional string: `None` and `""` are falsy. -/
def strTruthy : Option String → Bool
  | none => false
  | some s => s != ""

/-- `msg.text or msg.caption or ""` (Python `or` falls through falsy values). -/
def textOrCaption (msg : Payload) : String :=
  if strTruthy msg.text then msg.text.getD ""
  else if strTruthy msg.caption then msg.caption.getD "" else ""

/-- Python slice `[:4000]`, by code points. -/
def truncate4000 (s : String) : String := ⟨s.data.take 4000⟩

/-- A row of `broadcast_history` as written by `save_broadcast_history`. -/
structure HistoryRecord where
  adminId : Int
  htype : String
  mediaType : String
  sentCount : Nat
  totalUsers : Nat
  messageText : String
deriving DecidableEq

/-- `save_broadcast_history`: `INSERT INTO broadcast_history(...) VALUES
($now, admin_id, 'pro', msg.content_type, sent, total,
(msg.text or msg.caption or "")[:4000])`. -/
def save_broadcast_history (adminId : Int) (msg : Payload) (sent total : Nat) :
    HistoryRecord :=
  { adminId := adminId
    htype := "pro"
    mediaType := msg.contentType
    sentCount := sent
    totalUsers := total
    messageText := truncate4000 (textOrCaption msg) }

/-- The external environment observed by one `run_broadcast` execution.
`stoppedObs i` is the result of the top-of-iteration poll
`pro_states.get(admin_id)` at iteration `i`: `none` models a removed
registry entry, `some b` an entry whose `stopped` flag reads `b`
(the top of the loop reads only existence and `stopped`).
`pausedObs t` is the value of `st.get("paused")` at global poll time `t`
(the pause wait re-polls once per simulated second).
`sendOk i` is the transport outcome (send or copy) for the i-th recipient;
`editOk i` is the outcome of the progress-message edit at iteration `i`. -/
structure BCtx where
  stoppedObs : Nat → Option Bool
  pausedObs : Nat → Bool
  sendOk : Nat → Bool
  editOk : Nat → Bool

/-- `while st.get("paused"): await asyncio.sleep(1)` — polls `pausedObs`
starting at time `t`, returning the poll time at which the wait exits.
`fuel` bounds the number of polls; `none` means the wait was still
going when the budget ran out (the code itself has no bound). -/
def pauseWait (p : Nat → Bool) : Nat → Nat → Option Nat
  | _, 0 => none
  | t, fuel + 1 => if p t then pauseWait p (t + 1) fuel else some t

/-- How the delivery loop of `run_broadcast` ended:
`completed` — the recipient list was exhausted;
`broke` — `if not st or st.get("stopped"): break`;
`crashed` — the unguarded `bot.edit_message_text` raised, propagating out
of the loop; `fuelOut` — the pause wait outlived the poll budget. -/
inductive ExitKind
  | completed
  | broke
  | crashed
  | fuelOut
deriving DecidableEq

/-- `delay = 0.05` in `run_broadcast` — a fixed inter-send sleep,
independent of `BROADCAST_RATE`. -/
def pro_broadcast_delay : ℚ := 1 / 20

/-- The mutable locals of the delivery loop: the `sent` / `failed`
counters, the number of recipients attempted so far, the counter
values observed at each iteration boundary after an attempt, and the
total inter-send sleep requested so far. -/
structure LoopState where
  sent : Nat
  failed : Nat
  attempted : Nat
  trace : List (Nat × Nat)
  delayReq : ℚ
deriving DecidableEq

/-- The loop body's counter update for one attempted recipient:
`try: ...send...; sent += 1 except: failed += 1`, one more attempt,
the new counter pair appended to the boundary trace, and one more
`await asyncio.sleep(delay)` requested. -/
def stepState (C : BCtx) (i : Nat) (st : LoopState) : LoopState :=
  { sent := if C.sendOk i then st.sent + 1 else st.sent
    failed := if C.sendOk i then st.failed else st.failed + 1
    attempted := st.attempted + 1
    trace := st.trace ++
      [(if C.sendOk i then st.sent + 1 else st.sent,
        if C.sendOk i then st.failed else st.failed + 1)]
    delayReq := st.delayReq + pro_broadcast_delay }

/-- The `for uid in tg_ids:` loop of `run_broadcast`.  Each iteration:
poll the registry (`stoppedObs i`) and break on a missing entry or a set
`stopped` flag; run the pause wait; attempt the send (`sendOk i`),
incrementing exactly one of `sent` / `failed`; sleep `delay`; and when
`sent % 100 == 0 or uid == tg_ids[-1]`, attempt the progress edit, whose
failure (`editOk i = false`) raises out of the loop. -/
def runLoop (C : BCtx) (lastUid : Int) (fuel : Nat) :
    List Int → Nat → Nat → LoopState → LoopState × ExitKind
  | [], _, _, st => (st, .completed)
  | uid :: rest, i, t, st =>
    match C.stoppedObs i with
    | none => (st, .broke)
    | some true => (st, .broke)
    | some false =>
      match pauseWait C.pausedObs t fuel with
      | none => (st, .fuelOut)
      | some u =>
        let st' := stepState C i st
        if (st'.sent % 100 == 0 || uid == lastUid) && !(C.editOk i) then (st', .crashed)
        else runLoop C lastUid fuel rest (i + 1) (u + 1) st'

/-- `true` exactly on the exits on which control reaches the code after the
loop (`save_broadcast_history`, the completion announcement, and
`pro_states.pop`): normal exhaustion and `break`.  On `crashed` the
exception propagates past all of them. -/
def terminalExit : ExitKind → Bool
  | .completed => true
  | .broke => true
  | _ => false

/-- The observable outcome of one `run_broadcast` execution. -/
structure RunResult where
  sent : Nat
  failed : Nat
  attempted : Nat
  trace : List (Nat × Nat)
  delayReq : ℚ
  exit : ExitKind
  history : List HistoryRecord
  finalAnnounce : Bool
  stateRemoved : Bool
deriving DecidableEq

/-- `run_broadcast(bot, pool, admin_id, msg)`: resolve the recipients,
run the delivery loop, and on loop exit (only) write the history row,
announce completion, and pop the registry entry. -/
def run_broadcast (C : BCtx) (users : List User) (msg : Payload)
    (adminId : Int) (fuel : Nat) : RunResult :=
  let tgIds := resolveRecipients users
  let r := runLoop C (tgIds.getLastD 0) fuel tgIds 0 0 ⟨0, 0, 0, [], 0⟩
  { sent := r.1.sent
    failed := r.1.failed
    attempted := r.1.attempted
    trace := r.1.trace
    delayReq := r.1.delayReq
    exit := r.2
    history :=
      if terminalExit r.2 then [save_broadcast_history adminId msg r.1.sent tgIds.length]
      else []
    finalAnnounce := terminalExit r.2
    stateRemoved := terminalExit r.2 }

/-! ### The simple broadcast path (`admin_broadcast_flow`, main.py) -/

/-- `delay = 0 if BROADCAST_RATE <= 0 else 60.0 / BROADCAST_RATE`. -/
def simple_delay (rate : Int) : ℚ :=
  if rate ≤ 0 then 0 else 60 / (rate : ℚ)

/-- Counters of the simple broadcast loop, plus the total sleep requested
(`if delay: await asyncio.sleep(delay)` after every attempt). -/
structure SimpleResult where
  sent : Nat
  failed : Nat
  totalDelay : ℚ
deriving DecidableEq

/-- The `for uid in tg_ids:` loop of the simple path: the whole try-block
(text send, or copy with text fallback) is abstracted by the per-recipient
transport outcome `sendOk i`; any failure is caught and counted. -/
def simpleLoop (sendOk : Nat → Bool) (delay : ℚ) :
    List Int → Nat → SimpleResult → SimpleResult
  | [], _, acc => acc
  | _ :: rest, i, acc =>
    let acc' :=
      if sendOk i then { acc with sent := acc.sent + 1 }
      else { acc with failed := acc.failed + 1 }
    let acc'' :=
      if delay ≠ 0 then { acc' with totalDelay := acc'.totalDelay + delay } else acc'
    simpleLoop sendOk delay rest (i + 1) acc''

/-- The `'ok'` branch of `admin_broadcast_flow`: resolve recipients,
compute the per-message delay from the configured rate, deliver. -/
def admin_broadcast_flow (users : List User) (sendOk : Nat → Bool) (rate : Int) :
    SimpleResult :=
  simpleLoop sendOk (simple_delay rate) (resolveRecipients users) 0 ⟨0, 0, 0⟩

/-! ### The PRO registry handlers (`pro_states`) -/

/-- One value of the `pro_states` dict.  The dicts in the source have
varying key sets (`{"step": "wait_msg"}` has no `paused` / `stopped`
keys); a missing key read through `.get` is falsy, modelled as `false`. -/
structure ProEntry where
  step : String
  msg : Option Payload
  paused : Bool
  stopped : Bool
deriving DecidableEq

/-- Result of the `act == "new"` branch of `pro_callback`: the registry
entry afterwards, and whether an already-active rejection was surfaced. -/
structure NewOutcome where
  reg : Option ProEntry
  rejected : Bool
deriving DecidableEq

/-- `pro_callback`, `act == "new"`:
`pro_states[c.from_user.id] = {"step": "wait_msg"}` — the assignment is
unconditional; the handler never inspects the existing entry and has no
rejection branch. -/
def pro_callback_new (reg : Option ProEntry) : NewOutcome :=
  let _ := reg
  { reg := some { step := "wait_msg", msg := none, paused := false, stopped := false }
    rejected := false }

/-- `process_broadcast`: ignored unless the operator's entry exists with
`step == "wait_msg"`; then the entry is replaced by the confirm state. -/
def process_broadcast (reg : Option ProEntry) (m : Payload) : Option ProEntry :=
  match reg with
  | none => none
  | some st =>
    if st.step = "wait_msg" then
      some { step := "confirm", msg := some m, paused := false, stopped := false }
    else some st

/-- The three control actions of `manage_broadcast`. -/
inductive CtrlAct
  | pause
  | resume
  | stop
deriving DecidableEq

/-- `manage_broadcast`: on a missing entry, only "no active batch" is
answered; otherwise the corresponding flag is written. -/
def manage_broadcast (act : CtrlAct) (reg : Option ProEntry) : Option ProEntry :=
  match reg with
  | none => none
  | some st =>
    match act with
    | .pause => some { st with paused := true }
    | .resume => some { st with paused := false }
    | .stop => some { st with stopped := true }

/-! ### CSV export (`export_cb`, main.py) -/

/-- A row of `broadcast_history` as read back by the export query. -/
structure HRow where
  hid : Int
  createdAt : Int
  adminId : Int
  htype : Option String
  mediaType : Option String
  sentCount : Int
  totalUsers : Int
  messageText : Option String
deriving DecidableEq

/-- Python `chr(34)` (double quote) as a string. -/
def chr34 : String := (Char.ofNat 34).toString

/-- Python `x or ""` for an optional text column. -/
def orEmpty : Option String → String
  | none => ""
  | some s => s

/-- Single-character `str.replace`, character-wise. -/
def replaceChar (c d : Char) (s : String) : String :=
  ⟨s.data.map (fun x => if x = c then d else x)⟩

/-- `.replace(",", " ")` as applied to the `type` and `media_type` fields. -/
def commaToSpace (s : String) : String :=
  replaceChar (Char.ofNat 44) (Char.ofNat 32) s

/-- The `message_text` sanitization:
`.replace(chr(34), chr(39)).replace(chr(10), " ").replace(chr(13), " ")` —
double quotes become single quotes, LF and CR become spaces
(commas are NOT touched here). -/
def textSanitize (s : String) : String :=
  replaceChar (Char.ofNat 13) (Char.ofNat 32)
    (replaceChar (Char.ofNat 10) (Char.ofNat 32)
      (replaceChar (Char.ofNat 34) (Char.ofNat 39) s))

/-- One CSV line of `export_cb`; `fmt` renders
`created_at.strftime("%Y-%m-%d %H:%M:%S")`.  `created_at` and
`message_text` are wrapped in double quotes, the other fields are bare. -/
def csvRow (fmt : Int → String) (r : HRow) : String :=
  toString r.hid ++ "," ++ chr34 ++ fmt r.createdAt ++ chr34 ++ ","
    ++ toString r.adminId ++ ","
    ++ commaToSpace (orEmpty r.htype) ++ ","
    ++ commaToSpace (orEmpty r.mediaType) ++ ","
    ++ toString r.sentCount ++ "," ++ toString r.totalUsers ++ ","
    ++ chr34 ++ textSanitize (orEmpty r.messageText) ++ chr34

/-- The time-range filter: `WHERE created_at > now() - INTERVAL '7 days'`
(resp. 30 days), no filter otherwise; times in epoch seconds. -/
def rowMatches (kind : String) (now : Int) (r : HRow) : Bool :=
  if kind = "last7" then decide (now - 7 * 86400 < r.createdAt)
  else if kind = "last30" then decide (now - 30 * 86400 < r.createdAt)
  else true

/-- `ORDER BY created_at DESC`: `a` may precede `b` when
`b.createdAt ≤ a.createdAt`. -/
def newerFirst (a b : HRow) : Prop := b.createdAt ≤ a.createdAt

instance : DecidableRel newerFirst := fun a b => Int.decLe _ _

instance : IsTotal HRow newerFirst := ⟨fun a b => le_total b.createdAt a.createdAt⟩

instance : IsTrans HRow newerFirst := ⟨fun _ _ _ h1 h2 => le_trans h2 h1⟩

/-- The rows fetched by the export query: filtered by the time range and
sorted newest-first. -/
def exportSelection (kind : String) (now : Int) (rows : List HRow) : List HRow :=
  List.insertionSort newerFirst (rows.filter (rowMatches kind now))

/-- The header line written first into the CSV buffer. -/
def csvHeader : String :=
  "id,created_at,admin_id,type,media_type,sent_count,total_users,message_text"

/-- Python `chr(10)`: the newline written after every CSV line. -/
def nlStr : String := (Char.ofNat 10).toString

/-- What `export_cb` produces for a time-range kind: either the "nothing
found" reply (`"🔍 Ничего не найдено..."`, no file), or the CSV document. -/
inductive ExportOut
  | noRecords
  | file (content : String)
deriving DecidableEq

/-- `export_cb`: fetch the filtered, newest-first rows; if none, reply
"no records" and stop; otherwise write the header line and one line
per row into the buffer and send it as a document. -/
def export_cb (kind : String) (now : Int) (rows : List HRow)
    (fmt : Int → String) : ExportOut :=
  let sel := exportSelection kind now rows
  if sel.isEmpty then .noRecords
  else .file (csvHeader ++ nlStr ++ String.join (sel.map (fun r => csvRow fmt r ++ nlStr)))

/-- Modelled from the spec (§6, CSV export interface), for comparison with
`textSanitize` only: the spec asks that commas inside every free text
field (including `message_text`) be replaced by spaces, besides the
quote and newline normalization. -/
def specSanitizeText (s : String) : String :=
  replaceChar (Char.ofNat 13) (Char.ofNat 32)
    (replaceChar (Char.ofNat 10) (Char.ofNat 32)
      (replaceChar (Char.ofNat 34) (Char.ofNat 39)
        (replaceChar (Char.ofNat 44) (Char.ofNat 32) s)))

/-! ### Specification vocabulary -/

/-- One delivery attempt increments exactly one of the two counters by one. -/
def IncStep (a b : Nat × Nat) : Prop :=
  (b.1 = a.1 + 1 ∧ b.2 = a.2) ∨ (b.1 = a.1 ∧ b.2 = a.2 + 1)

/-- Every entry of the trace is obtained from its predecessor (resp. from
the start value `a`) by an `IncStep`. -/
def IncChain : Nat × Nat → List (Nat × Nat) → Prop
  | _, [] => True
  | a, b :: rest => IncStep a b ∧ IncChain b rest

/-- Number of successful transport outcomes among attempts `i, ..., i+n-1`. -/
def countSuccess (f : Nat → Bool) : Nat → Nat → Nat
  | _, 0 => 0
  | i, n + 1 => (if f i then 1 else 0) + countSuccess f (i + 1) n

/-- Number of failed transport outcomes among attempts `i, ..., i+n-1`. -/
def countFail (f : Nat → Bool) : Nat → Nat → Nat
  | _, 0 => 0
  | i, n + 1 => (if f i then 0 else 1) + countFail f (i + 1) n

/-- The delivery worker never leaves the loop, whatever the poll budget. -/
def StuckInPause (C : BCtx) (users : List User) (msg : Payload) (a : Int) : Prop :=
  ∀ fuel, (run_broadcast C users msg a fuel).exit = .fuelOut

/-! ### Concrete instances used by witnesses and counterexamples -/

/-- The loop invocation performed by `run_broadcast`: the resolved
recipients from index 0, time 0, zeroed counters. -/
def runLoop0 (C : BCtx) (users : List User) (fuel : Nat) : LoopState × ExitKind :=
  runLoop C ((resolveRecipients users).getLastD 0) fuel (resolveRecipients users) 0 0
    ⟨0, 0, 0, [], 0⟩

/-- Four user rows, one banned: the resolved recipients are `[11, 13, 14]`. -/
def usersW : List User := [⟨11, false⟩, ⟨12, true⟩, ⟨13, false⟩, ⟨14, false⟩]

/-- A plain text payload. -/
def msgW : Payload := ⟨"text", some "hello", none⟩

/-- Registry always active and un-paused; every send and edit succeeds. -/
def Cplain : BCtx := ⟨fun _ => some false, fun _ => false, fun _ => true, fun _ => true⟩

/-- Registry always active and un-paused, but every transport send fails
(so after the first attempt `sent = 0` and `0 % 100 == 0` triggers the
progress edit) and the edit fails too, raising out of the loop. -/
def C1ce : BCtx := ⟨fun _ => some false, fun _ => false, fun _ => false, fun _ => false⟩

/-- Registry always active and un-paused; the transport fails exactly for
the recipient at index 1; edits succeed. -/
def C2w : BCtx := ⟨fun _ => some false, fun _ => false, fun i => i != 1, fun _ => true⟩

/-- The registry's stopped flag is observed set from the second
top-of-iteration poll on (stop() invoked after one recipient was
attempted); never paused, all sends and edits succeed. -/
def C3w : BCtx := ⟨fun i => some (decide (1 ≤ i)), fun _ => false, fun _ => true, fun _ => true⟩

/-- Paused during the first three poll ticks, then resumed; registry
active throughout, all sends and edits succeed. -/
def C4w : BCtx := ⟨fun _ => some false, fun t => decide (t < 3), fun _ => true, fun _ => true⟩

/-- The stop-during-pause scenario: the pause flag is observed set at
every poll (the operator never resumes), and the registry's stopped flag
is set from the second top-of-iteration poll on — i.e. stop() was invoked
while the worker was already inside the pause wait.  The wait polls only
`paused`, so the stop is never observed. -/
def C4ce : BCtx := ⟨fun i => some (decide (0 < i)), fun _ => true, fun _ => true, fun _ => true⟩

/-- An in-flight batch entry: confirm step, currently paused, not stopped. -/
def activeBatch : ProEntry := ⟨"confirm", some ⟨"text", some "hello", none⟩, true, false⟩

/-- One eligible recipient. -/
def usersC6 : List User := [⟨21, false⟩]

/-- Registry active and un-paused, the send succeeds, and the progress
edit on the final recipient (`uid == tg_ids[-1]`) fails — e.g. the
control message was deleted. -/
def C6ce : BCtx := ⟨fun _ => some false, fun _ => false, fun _ => true, fun _ => false⟩

/-- The registry entry is absent at every poll (removed between the
confirmation and the background task's first iteration). -/
def C10w : BCtx := ⟨fun _ => none, fun _ => false, fun _ => true, fun _ => true⟩

/-- A history row whose `message_text` contains a comma. -/
def hrowCE : HRow := ⟨1, 5, 2, some "t", some "m", 3, 4, some "a,b"⟩

/-- A fixed timestamp renderer. -/
def fmtCE : Int → String := fun _ => "2025-01-01 00:00:00"

/-- Two history rows; with `now = 1000000` only the second is in the last
7 days. -/
def rowsW : List HRow :=
  [⟨1, 100, 2, some "t", none, 3, 4, some "x"⟩,
   ⟨2, 999999, 5, some "pro", some "text", 1, 2, none⟩]

/-! ### Helper lemmas -/

theorem countSuccess_add_countFail (f : Nat → Bool) :
    ∀ n i, countSuccess f i n + countFail f i n = n := by
  intro n
  induction n with
  | zero => intro i; rfl
  | succ n ih =>
    intro i
    have h2 := ih (i + 1)
    simp only [countSuccess, countFail]
    cases h : f i <;> simp only [Bool.false_eq_true, ite_true, ite_false, if_pos, if_neg] <;> omega

theorem pauseWait_spec (p : Nat → Bool) :
    ∀ fuel t u, pauseWait p t fuel = some u →
      p u = false ∧ t ≤ u ∧ ∀ v, t ≤ v → v < u → p v = true := by
  intro fuel
  induction fuel with
  | zero => intro t u h; simp [pauseWait] at h
  | succ fuel ih =>
    intro t u h
    simp only [pauseWait] at h
    by_cases hp : p t
    · rw [if_pos hp] at h
      obtain ⟨h1, h2, h3⟩ := ih (t + 1) u h
      refine ⟨h1, by omega, fun v hv1 hv2 => ?_⟩
      rcases Nat.eq_or_lt_of_le hv1 with rfl | hlt
      · exact hp
      · exact h3 v hlt hv2
    · rw [if_neg hp] at h
      cases h
      exact ⟨Bool.not_eq_true _ ▸ Bool.of_not_eq_true hp, le_refl _, fun v hv1 hv2 => absurd (lt_of_le_of_lt hv1 hv2) (lt_irrefl _)⟩

theorem pauseWait_always_paused (p : Nat → Bool) (hp : ∀ v, p v = true) :
    ∀ fuel t, pauseWait p t fuel = none := by
  intro fuel
  induction fuel with
  | zero => intro t; rfl
  | succ fuel ih => intro t; simp [pauseWait, hp t, ih (t + 1)]

theorem pauseWait_of_unpaused (p : Nat → Bool) (t fuel : Nat)
    (hp : p t = false) (hf : 1 ≤ fuel) : pauseWait p t fuel = some t := by
  cases fuel with
  | zero => omega
  | succ fuel => simp [pauseWait, hp]

theorem IncStep_stepState (C : BCtx) (i : Nat) (st : LoopState) :
    IncStep (st.sent, st.failed) ((stepState C i st).sent, (stepState C i st).failed) := by
  cases h : C.sendOk i <;> simp [stepState, h, IncStep]

theorem stepState_sum (C : BCtx) (i : Nat) (st : LoopState) :
    (stepState C i st).sent + (stepState C i st).failed = st.sent + st.failed + 1 := by
  cases h : C.sendOk i <;> simp [stepState, h] <;> omega

/-- Master structural lemma about the delivery loop: the trace grows by an
`IncChain` extension whose length is the number of attempts made, each
attempt adds one to `sent + failed` and requests one `pro_broadcast_delay`,
at most one attempt happens per remaining recipient, and a `completed`
exit means every remaining recipient was attempted. -/
theorem runLoop_ext (C : BCtx) (lastUid : Int) (fuel : Nat) :
    ∀ (l : List Int) (i t : Nat) (st : LoopState),
      ∃ ext : List (Nat × Nat),
        (runLoop C lastUid fuel l i t st).1.trace = st.trace ++ ext
        ∧ IncChain (st.sent, st.failed) ext
        ∧ (runLoop C lastUid fuel l i t st).1.sent
            + (runLoop C lastUid fuel l i t st).1.failed
            = st.sent + st.failed + ext.length
        ∧ (runLoop C lastUid fuel l i t st).1.attempted = st.attempted + ext.length
        ∧ (runLoop C lastUid fuel l i t st).1.delayReq
            = st.delayReq + (ext.length : ℚ) * pro_broadcast_delay
        ∧ ext.length ≤ l.length
        ∧ ((runLoop C lastUid fuel l i t st).2 = .completed → ext.length = l.length) := by
  intro l
  induction l with
  | nil =>
    intro i t st
    exact ⟨[], by simp [runLoop], trivial, by simp [runLoop], by simp [runLoop],
      by simp [runLoop], by simp, by simp⟩
  | cons uid rest ih =>
    intro i t st
    cases hS : C.stoppedObs i with
    | none =>
      exact ⟨[], by simp [runLoop, hS], trivial, by simp [runLoop, hS],
        by simp [runLoop, hS], by simp [runLoop, hS], by simp,
        by simp [runLoop, hS]⟩
    | some b =>
      cases b with
      | true =>
        exact ⟨[], by simp [runLoop, hS], trivial, by simp [runLoop, hS],
          by simp [runLoop, hS], by simp [runLoop, hS], by simp,
          by simp [runLoop, hS]⟩
      | false =>
        cases hW : pauseWait C.pausedObs t fuel with
        | none =>
          exact ⟨[], by simp [runLoop, hS, hW], trivial, by simp [runLoop, hS, hW],
            by simp [runLoop, hS, hW], by simp [runLoop, hS, hW], by simp,
            by simp [runLoop, hS, hW]⟩
        | some u =>
          by_cases hc : ((stepState C i st).sent % 100 == 0 || uid == lastUid) && !(C.editOk i)
          · have hstep : runLoop C lastUid fuel (uid :: rest) i t st
                = (stepState C i st, ExitKind.crashed) := by
              simp only [runLoop, hS, hW]
              rw [if_pos hc]
            refine ⟨[((stepState C i st).sent, (stepState C i st).failed)], ?_,
              ⟨IncStep_stepState C i st, trivial⟩, ?_, ?_, ?_, ?_, ?_⟩
            · rw [hstep]; rfl
            · rw [hstep]; simpa using stepState_sum C i st
            · rw [hstep]; simp [stepState]
            · rw [hstep]; simp only [stepState, List.length_singleton]; push_cast; ring
            · simp
            · rw [hstep]; intro hcpl; cases hcpl
          · have hstep : runLoop C lastUid fuel (uid :: rest) i t st
                = runLoop C lastUid fuel rest (i + 1) (u + 1) (stepState C i st) := by
              simp only [runLoop, hS, hW]
              rw [if_neg hc]
            obtain ⟨ext, h1, h2, h3, h4, h5, h6, h7⟩ := ih (i + 1) (u + 1) (stepState C i st)
            refine ⟨((stepState C i st).sent, (stepState C i st).failed) :: ext, ?_,
              ⟨IncStep_stepState C i st, h2⟩, ?_, ?_, ?_, ?_, ?_⟩
            · rw [hstep, h1]
              show (st.trace ++ _) ++ ext = _
              rw [List.append_assoc]
              rfl
            · rw [hstep, h3]
              have := stepState_sum C i st
              simp only [List.length_cons]
              omega
            · rw [hstep, h4]
              simp only [stepState, List.length_cons]
              omega
            · rw [hstep, h5]
              simp only [stepState, List.length_cons]
              push_cast
              ring
            · simpa using Nat.succ_le_succ h6
            · rw [hstep]
              intro hcpl
              simp only [List.length_cons, List.length_cons, h7 hcpl]

/-- Every entry of an `IncChain` extension has counter sum bounded by the
start sum plus the extension length. -/
theorem IncChain_mem_sum (a : Nat × Nat) :
    ∀ ext : List (Nat × Nat), IncChain a ext →
      ∀ p ∈ ext, p.1 + p.2 ≤ a.1 + a.2 + ext.length := by
  intro ext
  induction ext generalizing a with
  | nil => intro _ p hp; simp at hp
  | cons b rest ih =>
    intro hch p hp
    obtain ⟨hstep, hrest⟩ := hch
    have hb : b.1 + b.2 = a.1 + a.2 + 1 := by
      rcases hstep with ⟨h1, h2⟩ | ⟨h1, h2⟩ <;> omega
    rcases List.mem_cons.mp hp with rfl | hp'
    · simp only [List.length_cons]; omega
    · have := ih b hrest p hp'
      simp only [List.length_cons]
      omega

/-- If the registry stays active (entry present, not stopped) for every
poll of the remaining recipients and every progress edit succeeds, the
loop either runs out of pause fuel or completes, attempting every
remaining recipient and classifying each by its transport outcome. -/
theorem runLoop_active (C : BCtx) (lastUid : Int) (fuel : Nat)
    (hedit : ∀ k, C.editOk k = true) :
    ∀ (l : List Int) (i t : Nat) (st : LoopState),
      (∀ k, k < l.length → C.stoppedObs (i + k) = some false) →
      (runLoop C lastUid fuel l i t st).2 = .fuelOut
      ∨ ((runLoop C lastUid fuel l i t st).2 = .completed
          ∧ (runLoop C lastUid fuel l i t st).1.sent
              = st.sent + countSuccess C.sendOk i l.length
          ∧ (runLoop C lastUid fuel l i t st).1.failed
              = st.failed + countFail C.sendOk i l.length
          ∧ (runLoop C lastUid fuel l i t st).1.attempted
              = st.attempted + l.length) := by
  intro l
  induction l with
  | nil =>
    intro i t st _
    right
    refine ⟨rfl, ?_, ?_, ?_⟩ <;> simp [runLoop, countSuccess, countFail]
  | cons uid rest ih =>
    intro i t st hstop
    have hS : C.stoppedObs i = some false := by simpa using hstop 0 (by simp)
    cases hW : pauseWait C.pausedObs t fuel with
    | none =>
      left
      simp [runLoop, hS, hW]
    | some u =>
      have hcnot : ¬ ((((stepState C i st).sent % 100 == 0 || uid == lastUid)
          && !(C.editOk i)) = true) := by
        simp [hedit i]
      have hstep : runLoop C lastUid fuel (uid :: rest) i t st
          = runLoop C lastUid fuel rest (i + 1) (u + 1) (stepState C i st) := by
        simp only [runLoop, hS, hW]
        rw [if_neg hcnot]
      rw [hstep]
      have hstop' : ∀ k, k < rest.length → C.stoppedObs (i + 1 + k) = some false := by
        intro k hk
        have := hstop (k + 1) (by simpa using Nat.succ_lt_succ hk)
        rwa [show i + (k + 1) = i + 1 + k by omega] at this
      rcases ih (i + 1) (u + 1) (stepState C i st) hstop' with h | ⟨hc, hs, hf, ha⟩
      · left; exact h
      · right
        refine ⟨hc, ?_, ?_, ?_⟩
        · rw [hs]
          simp only [List.length_cons, countSuccess]
          cases h : C.sendOk i <;> simp [stepState, h] <;> omega
        · rw [hf]
          simp only [List.length_cons, countFail]
          cases h : C.sendOk i <;> simp [stepState, h] <;> omega
        · rw [ha]
          simp only [stepState, List.length_cons]
          omega

/-- If the registry stays active for exactly the first `N` polls and the
poll at index `N` observes a removed entry or a set `stopped` flag, the
loop either runs out of pause fuel or breaks after attempting exactly
the first `N` remaining recipients. -/
theorem runLoop_stopped (C : BCtx) (lastUid : Int) (fuel : Nat)
    (hedit : ∀ k, C.editOk k = true) :
    ∀ (N : Nat) (l : List Int) (i t : Nat) (st : LoopState),
      N < l.length →
      (∀ k, k < N → C.stoppedObs (i + k) = some false) →
      C.stoppedObs (i + N) ≠ some false →
      (runLoop C lastUid fuel l i t st).2 = .fuelOut
      ∨ ((runLoop C lastUid fuel l i t st).2 = .broke
          ∧ (runLoop C lastUid fuel l i t st).1.sent
              = st.sent + countSuccess C.sendOk i N
          ∧ (runLoop C lastUid fuel l i t st).1.failed
              = st.failed + countFail C.sendOk i N
          ∧ (runLoop C lastUid fuel l i t st).1.attempted = st.attempted + N) := by
  intro N
  induction N with
  | zero =>
    intro l i t st hN hbefore hstopN
    cases l with
    | nil => simp at hN
    | cons uid rest =>
      right
      cases hS : C.stoppedObs i with
      | none => refine ⟨?_, ?_, ?_, ?_⟩ <;> simp [runLoop, hS, countSuccess, countFail]
      | some b =>
        cases b with
        | true => refine ⟨?_, ?_, ?_, ?_⟩ <;> simp [runLoop, hS, countSuccess, countFail]
        | false => exact absurd hS hstopN
  | succ N ihN =>
    intro l i t st hN hbefore hstopN
    cases l with
    | nil => simp at hN
    | cons uid rest =>
      have hS : C.stoppedObs i = some false := by simpa using hbefore 0 (Nat.succ_pos N)
      cases hW : pauseWait C.pausedObs t fuel with
      | none => left; simp [runLoop, hS, hW]
      | some u =>
        have hcnot : ¬ ((((stepState C i st).sent % 100 == 0 || uid == lastUid)
            && !(C.editOk i)) = true) := by
          simp [hedit i]
        have hstep : runLoop C lastUid fuel (uid :: rest) i t st
            = runLoop C lastUid fuel rest (i + 1) (u + 1) (stepState C i st) := by
          simp only [runLoop, hS, hW]
          rw [if_neg hcnot]
        rw [hstep]
        have hbefore' : ∀ k, k < N → C.stoppedObs (i + 1 + k) = some false := by
          intro k hk
          have := hbefore (k + 1) (Nat.succ_lt_succ hk)
          rwa [show i + (k + 1) = i + 1 + k by omega] at this
        have hstopN' : C.stoppedObs (i + 1 + N) ≠ some false := by
          rwa [show i + 1 + N = i + (N + 1) by omega]
        have hN' : N < rest.length := by simpa using Nat.lt_of_succ_lt_succ (by simpa using hN)
        rcases ihN rest (i + 1) (u + 1) (stepState C i st) hN' hbefore' hstopN' with h | ⟨hb, hs, hf, ha⟩
        · left; exact h
        · right
          refine ⟨hb, ?_, ?_, ?_⟩
          · rw [hs]
            simp only [countSuccess]
            cases h : C.sendOk i <;> simp [stepState, h] <;> omega
          · rw [hf]
            simp only [countFail]
            cases h : C.sendOk i <;> simp [stepState, h] <;> omega
          · rw [ha]
            simp only [stepState]
            omega

/-- With the pause flag never observed set and at least one poll of fuel,
the loop never runs out of pause fuel. -/
theorem runLoop_no_fuelOut (C : BCtx) (lastUid : Int) (fuel : Nat)
    (hpause : ∀ v, C.pausedObs v = false) (hfuel : 1 ≤ fuel) :
    ∀ (l : List Int) (i t : Nat) (st : LoopState),
      (runLoop C lastUid fuel l i t st).2 ≠ .fuelOut := by
  intro l
  induction l with
  | nil => intro i t st; simp [runLoop]
  | cons uid rest ih =>
    intro i t st
    cases hS : C.stoppedObs i with
    | none => simp [runLoop, hS]
    | some b =>
      cases b with
      | true => simp [runLoop, hS]
      | false =>
        have hW : pauseWait C.pausedObs t fuel = some t :=
          pauseWait_of_unpaused _ _ _ (hpause t) hfuel
        by_cases hc : (((stepState C i st).sent % 100 == 0 || uid == lastUid)
            && !(C.editOk i)) = true
        · have hstep : runLoop C lastUid fuel (uid :: rest) i t st
              = (stepState C i st, ExitKind.crashed) := by
            simp only [runLoop, hS, hW]
            rw [if_pos hc]
          rw [hstep]
          simp
        · have hstep : runLoop C lastUid fuel (uid :: rest) i t st
              = runLoop C lastUid fuel rest (i + 1) (t + 1) (stepState C i st) := by
            simp only [runLoop, hS, hW]
            rw [if_neg hc]
          rw [hstep]
          exact ih (i + 1) (t + 1) (stepState C i st)

/-- All fields of a `run_broadcast` result, expressed through the
underlying loop invocation. -/
theorem run_broadcast_fields (C : BCtx) (users : List User) (msg : Payload)
    (a : Int) (fuel : Nat) :
    (run_broadcast C users msg a fuel).sent = (runLoop0 C users fuel).1.sent
    ∧ (run_broadcast C users msg a fuel).failed = (runLoop0 C users fuel).1.failed
    ∧ (run_broadcast C users msg a fuel).attempted = (runLoop0 C users fuel).1.attempted
    ∧ (run_broadcast C users msg a fuel).trace = (runLoop0 C users fuel).1.trace
    ∧ (run_broadcast C users msg a fuel).delayReq = (runLoop0 C users fuel).1.delayReq
    ∧ (run_broadcast C users msg a fuel).exit = (runLoop0 C users fuel).2
    ∧ (run_broadcast C users msg a fuel).history
        = (if terminalExit (runLoop0 C users fuel).2
            then [save_broadcast_history a msg (runLoop0 C users fuel).1.sent
                (resolveRecipients users).length]
            else [])
    ∧ (run_broadcast C users msg a fuel).finalAnnounce
        = terminalExit (runLoop0 C users fuel).2
    ∧ (run_broadcast C users msg a fuel).stateRemoved
        = terminalExit (runLoop0 C users fuel).2 :=
  ⟨rfl, rfl, rfl, rfl, rfl, rfl, rfl, rfl, rfl⟩

/-- The total inter-send sleep requested by the pro loop is the fixed
`delay = 0.05` times the number of attempts. -/
theorem run_broadcast_delayReq (C : BCtx) (users : List User) (msg : Payload)
    (a : Int) (fuel : Nat) :
    (run_broadcast C users msg a fuel).delayReq
      = ((run_broadcast C users msg a fuel).attempted : ℚ) * pro_broadcast_delay := by
  obtain ⟨_, _, hatt, _, hdelay, _, _, _, _⟩ := run_broadcast_fields C users msg a fuel
  obtain ⟨ext, _, _, _, e4, e5, _, _⟩ :=
    runLoop_ext C ((resolveRecipients users).getLastD 0) fuel (resolveRecipients users) 0 0
      ⟨0, 0, 0, [], 0⟩
  have E4 : (runLoop0 C users fuel).1.attempted = 0 + ext.length := e4
  have E5 : (runLoop0 C users fuel).1.delayReq
      = 0 + (ext.length : ℚ) * pro_broadcast_delay := e5
  rw [hdelay, hatt, E5, E4]
  push_cast
  ring

/-- The total sleep requested by the simple broadcast loop is the
per-message delay times the number of recipients. -/
theorem simpleLoop_totalDelay (sendOk : Nat → Bool) (delay : ℚ) :
    ∀ (l : List Int) (i : Nat) (acc : SimpleResult),
      (simpleLoop sendOk delay l i acc).totalDelay
        = acc.totalDelay + (l.length : ℚ) * delay := by
  intro l
  induction l with
  | nil => intro i acc; simp [simpleLoop]
  | cons uid rest ih =>
    intro i acc
    by_cases hd : delay = 0
    · subst hd
      cases h : sendOk i <;> simp [simpleLoop, h, ih]
    · cases h : sendOk i <;>
        simp [simpleLoop, h, hd, ih, List.length_cons] <;> push_cast <;> ring

/-! ### The claims -/

/-- C1 (amended): for every environment, the counters satisfy
`sent + failed = attempted` and `attempted ≤ total` at exit; each
boundary-trace entry results from its predecessor by incrementing exactly
one counter by one, and every boundary sum is at most the number of
resolved recipients; a completed exit attempted every recipient.  (The
amendment: an exit with `attempted < total` can also be caused by a
failed progress edit — the `crashed` exit — not only by a stop or a
removed registry entry, see the counterexample.) -/
theorem c1_counter_invariant (C : BCtx) (users : List User) (msg : Payload)
    (a : Int) (fuel : Nat) :
    (run_broadcast C users msg a fuel).sent + (run_broadcast C users msg a fuel).failed
        = (run_broadcast C users msg a fuel).attempted
    ∧ (run_broadcast C users msg a fuel).attempted ≤ (resolveRecipients users).length
    ∧ (run_broadcast C users msg a fuel).trace.length
        = (run_broadcast C users msg a fuel).attempted
    ∧ IncChain (0, 0) (run_broadcast C users msg a fuel).trace
    ∧ (∀ p ∈ (run_broadcast C users msg a fuel).trace,
        p.1 + p.2 ≤ (resolveRecipients users).length)
    ∧ ((run_broadcast C users msg a fuel).exit = .completed →
        (run_broadcast C users msg a fuel).attempted = (resolveRecipients users).length) := by
  obtain ⟨hsent, hfailed, hatt, htrace, _, hexit, _, _, _⟩ :=
    run_broadcast_fields C users msg a fuel
  obtain ⟨ext, e1, e2, e3, e4, e5, e6, e7⟩ :=
    runLoop_ext C ((resolveRecipients users).getLastD 0) fuel (resolveRecipients users) 0 0
      ⟨0, 0, 0, [], 0⟩
  have E1 : (runLoop0 C users fuel).1.trace = [] ++ ext := e1
  have E3 : (runLoop0 C users fuel).1.sent + (runLoop0 C users fuel).1.failed
      = 0 + 0 + ext.length := e3
  have E4 : (runLoop0 C users fuel).1.attempted = 0 + ext.length := e4
  have E6 : ext.length ≤ (resolveRecipients users).length := e6
  have E7 : (runLoop0 C users fuel).2 = .completed →
      ext.length = (resolveRecipients users).length := e7
  simp only [List.nil_append] at E1
  refine ⟨?_, ?_, ?_, ?_, ?_, ?_⟩
  · rw [hsent, hfailed, hatt]; omega
  · rw [hatt]; omega
  · rw [htrace, hatt, E1]; omega
  · rw [htrace, E1]; exact e2
  · rw [htrace, E1]
    intro p hp
    have hq := IncChain_mem_sum (0, 0) ext e2 p hp
    simp only [Nat.zero_add] at hq
    omega
  · rw [hexit, hatt]
    intro h
    have := E7 h
    omega

/-- C1, counterexample to the unamended exit clause: with every send and
edit failing, the loop exits via the raised edit exception (`crashed`)
after one of three recipients — not via stop and not via a removed
registry entry (`C1ce.stoppedObs` is `some false` everywhere), yet
`attempted ≠ total`. -/
theorem c1_counterexample :
    (run_broadcast C1ce usersW msgW 7 1).exit = .crashed
    ∧ (run_broadcast C1ce usersW msgW 7 1).exit ≠ .broke
    ∧ (run_broadcast C1ce usersW msgW 7 1).attempted = 1
    ∧ (resolveRecipients usersW).length = 3 := by decide

/-- C1 witness: the amended invariant at a concrete run. -/
theorem c1_witness :
    (run_broadcast Cplain usersW msgW 7 1).sent + (run_broadcast Cplain usersW msgW 7 1).failed
        = (run_broadcast Cplain usersW msgW 7 1).attempted
    ∧ (run_broadcast Cplain usersW msgW 7 1).attempted ≤ (resolveRecipients usersW).length
    ∧ (run_broadcast Cplain usersW msgW 7 1).trace.length
        = (run_broadcast Cplain usersW msgW 7 1).attempted
    ∧ IncChain (0, 0) (run_broadcast Cplain usersW msgW 7 1).trace
    ∧ (∀ p ∈ (run_broadcast Cplain usersW msgW 7 1).trace,
        p.1 + p.2 ≤ (resolveRecipients usersW).length)
    ∧ ((run_broadcast Cplain usersW msgW 7 1).exit = .completed →
        (run_broadcast Cplain usersW msgW 7 1).attempted = (resolveRecipients usersW).length) :=
  c1_counter_invariant Cplain usersW msgW 7 1

/-- C2 (confirmed): with the registry active throughout, no pause, and
edits succeeding, the loop completes for EVERY transport outcome oracle:
every resolved recipient is attempted (a failure at recipient `i` never
prevents `i+1..n`), no per-recipient error escapes the loop, and the
final `failed` (resp. `sent`) count exactly the failing (resp.
succeeding) attempts. -/
theorem c2_failure_isolation (C : BCtx) (users : List User) (msg : Payload)
    (a : Int) (fuel : Nat)
    (hstop : ∀ i, C.stoppedObs i = some false)
    (hpause : ∀ v, C.pausedObs v = false)
    (hedit : ∀ i, C.editOk i = true)
    (hfuel : 1 ≤ fuel) :
    (run_broadcast C users msg a fuel).exit = .completed
    ∧ (run_broadcast C users msg a fuel).attempted = (resolveRecipients users).length
    ∧ (run_broadcast C users msg a fuel).sent
        = countSuccess C.sendOk 0 (resolveRecipients users).length
    ∧ (run_broadcast C users msg a fuel).failed
        = countFail C.sendOk 0 (resolveRecipients users).length := by
  obtain ⟨hsent, hfailed, hatt, _, _, hexit, _, _, _⟩ :=
    run_broadcast_fields C users msg a fuel
  have hnf : (runLoop0 C users fuel).2 ≠ .fuelOut :=
    runLoop_no_fuelOut C _ fuel hpause hfuel _ 0 0 _
  rcases runLoop_active C ((resolveRecipients users).getLastD 0) fuel hedit
      (resolveRecipients users) 0 0 ⟨0, 0, 0, [], 0⟩ (fun k _ => hstop (0 + k)) with
    h | ⟨hc, hs, hf, ha⟩
  · exact absurd h hnf
  · have HS : (runLoop0 C users fuel).1.sent
        = 0 + countSuccess C.sendOk 0 (resolveRecipients users).length := hs
    have HF : (runLoop0 C users fuel).1.failed
        = 0 + countFail C.sendOk 0 (resolveRecipients users).length := hf
    have HA : (runLoop0 C users fuel).1.attempted
        = 0 + (resolveRecipients users).length := ha
    refine ⟨?_, ?_, ?_, ?_⟩
    · rw [hexit]; exact hc
    · rw [hatt]; omega
    · rw [hsent]; omega
    · rw [hfailed]; omega

/-- C2 witness: three recipients with the transport failing exactly at
index 1: all three are attempted, `failed` counts exactly the injected
failure. -/
theorem c2_witness :
    (run_broadcast C2w usersW msgW 7 1).exit = .completed
    ∧ (run_broadcast C2w usersW msgW 7 1).attempted = (resolveRecipients usersW).length
    ∧ (run_broadcast C2w usersW msgW 7 1).sent
        = countSuccess C2w.sendOk 0 (resolveRecipients usersW).length
    ∧ (run_broadcast C2w usersW msgW 7 1).failed
        = countFail C2w.sendOk 0 (resolveRecipients usersW).length :=
  c2_failure_isolation C2w usersW msgW 7 1 (fun _ => rfl) (fun _ => rfl) (fun _ => rfl)
    (by decide)

/-- C3 (confirmed): if the registry is active for the first `N`
top-of-iteration polls and the poll at index `N` observes the stopped
flag set (with `N < M` resolved recipients, no pause, edits fine), the
loop breaks at once: exactly `N` recipients are attempted,
`sent + failed = N`, and one history row is written with
`total_users = M` and `sent_count` = the number of successful sends
among the `N` attempts. -/
theorem c3_stop_is_early_terminal (C : BCtx) (users : List User) (msg : Payload)
    (a : Int) (fuel N : Nat)
    (hN : N < (resolveRecipients users).length)
    (hbefore : ∀ k, k < N → C.stoppedObs k = some false)
    (hstopN : C.stoppedObs N = some true)
    (hpause : ∀ v, C.pausedObs v = false)
    (hedit : ∀ i, C.editOk i = true)
    (hfuel : 1 ≤ fuel) :
    (run_broadcast C users msg a fuel).exit = .broke
    ∧ (run_broadcast C users msg a fuel).attempted = N
    ∧ (run_broadcast C users msg a fuel).sent
        + (run_broadcast C users msg a fuel).failed = N
    ∧ (run_broadcast C users msg a fuel).sent = countSuccess C.sendOk 0 N
    ∧ (run_broadcast C users msg a fuel).history
        = [save_broadcast_history a msg (countSuccess C.sendOk 0 N)
            (resolveRecipients users).length]
    ∧ ∀ rec ∈ (run_broadcast C users msg a fuel).history,
        rec.totalUsers = (resolveRecipients users).length
        ∧ rec.sentCount = countSuccess C.sendOk 0 N := by
  obtain ⟨hsent, hfailed, hatt, _, _, hexit, hhist, _, _⟩ :=
    run_broadcast_fields C users msg a fuel
  have hnf : (runLoop0 C users fuel).2 ≠ .fuelOut :=
    runLoop_no_fuelOut C _ fuel hpause hfuel _ 0 0 _
  rcases runLoop_stopped C ((resolveRecipients users).getLastD 0) fuel hedit N
      (resolveRecipients users) 0 0 ⟨0, 0, 0, [], 0⟩ hN
      (fun k hk => by rw [Nat.zero_add]; exact hbefore k hk)
      (by rw [Nat.zero_add, hstopN]; simp) with h | ⟨hb, hs, hf, ha⟩
  · exact absurd h hnf
  · have HB : (runLoop0 C users fuel).2 = ExitKind.broke := hb
    have HS : (runLoop0 C users fuel).1.sent = 0 + countSuccess C.sendOk 0 N := hs
    have HF : (runLoop0 C users fuel).1.failed = 0 + countFail C.sendOk 0 N := hf
    have HA : (runLoop0 C users fuel).1.attempted = 0 + N := ha
    have hsum := countSuccess_add_countFail C.sendOk N 0
    have hH : (run_broadcast C users msg a fuel).history
        = [save_broadcast_history a msg (countSuccess C.sendOk 0 N)
            (resolveRecipients users).length] := by
      rw [hhist, HB]
      rw [show (runLoop0 C users fuel).1.sent = countSuccess C.sendOk 0 N by omega]
      rfl
    refine ⟨?_, ?_, ?_, ?_, hH, ?_⟩
    · rw [hexit]; exact HB
    · rw [hatt]; omega
    · rw [hsent, hfailed]; omega
    · rw [hsent]; omega
    · intro rec hrec
      rw [hH] at hrec
      rcases List.mem_singleton.mp hrec with rfl
      exact ⟨rfl, rfl⟩

/-- C3 witness: stop observed after 1 of 3 recipients was attempted. -/
theorem c3_witness :
    (run_broadcast C3w usersW msgW 7 1).exit = .broke
    ∧ (run_broadcast C3w usersW msgW 7 1).attempted = 1
    ∧ (run_broadcast C3w usersW msgW 7 1).sent
        + (run_broadcast C3w usersW msgW 7 1).failed = 1
    ∧ (run_broadcast C3w usersW msgW 7 1).sent = countSuccess C3w.sendOk 0 1
    ∧ (run_broadcast C3w usersW msgW 7 1).history
        = [save_broadcast_history 7 msgW (countSuccess C3w.sendOk 0 1)
            (resolveRecipients usersW).length]
    ∧ ∀ rec ∈ (run_broadcast C3w usersW msgW 7 1).history,
        rec.totalUsers = (resolveRecipients usersW).length
        ∧ rec.sentCount = countSuccess C3w.sendOk 0 1 :=
  c3_stop_is_early_terminal C3w usersW msgW 7 1 1 (by decide) (by decide) (by decide)
    (fun _ => rfl) (fun _ => rfl) (by decide)

/-- C4 (amended): the pause wait ends exactly at the first poll at which
`paused` reads false — in particular it is never ended by the stopped
flag alone, since the wait polls only `paused` (see the counterexample);
while it lasts no counters change (the wait returns only a poll time);
and whenever the waits terminate (exit is not `fuelOut`), an
active-registry run attempts every recipient exactly once in order —
i.e. after a resume the batch continues from the next unattempted
recipient, not from the start. -/
theorem c4_pause_correctness :
    (∀ (p : Nat → Bool) (t fuel u : Nat), pauseWait p t fuel = some u →
        p u = false ∧ t ≤ u ∧ ∀ v, t ≤ v → v < u → p v = true)
    ∧ (∀ (C : BCtx) (users : List User) (msg : Payload) (a : Int) (fuel : Nat),
        (∀ i, C.stoppedObs i = some false) →
        (∀ i, C.editOk i = true) →
        (run_broadcast C users msg a fuel).exit ≠ .fuelOut →
        (run_broadcast C users msg a fuel).exit = .completed
        ∧ (run_broadcast C users msg a fuel).attempted = (resolveRecipients users).length
        ∧ (run_broadcast C users msg a fuel).sent
            = countSuccess C.sendOk 0 (resolveRecipients users).length
        ∧ (run_broadcast C users msg a fuel).failed
            = countFail C.sendOk 0 (resolveRecipients users).length) := by
  constructor
  · intro p t fuel u h
    exact pauseWait_spec p fuel t u h
  · intro C users msg a fuel hstop hedit hnf
    obtain ⟨hsent, hfailed, hatt, _, _, hexit, _, _, _⟩ :=
      run_broadcast_fields C users msg a fuel
    rcases runLoop_active C ((resolveRecipients users).getLastD 0) fuel hedit
        (resolveRecipients users) 0 0 ⟨0, 0, 0, [], 0⟩ (fun k _ => hstop (0 + k)) with
      h | ⟨hc, hs, hf, ha⟩
    · exact absurd (hexit.trans h) hnf
    · have HS : (runLoop0 C users fuel).1.sent
          = 0 + countSuccess C.sendOk 0 (resolveRecipients users).length := hs
      have HF : (runLoop0 C users fuel).1.failed
          = 0 + countFail C.sendOk 0 (resolveRecipients users).length := hf
      have HA : (runLoop0 C users fuel).1.attempted
          = 0 + (resolveRecipients users).length := ha
      refine ⟨?_, ?_, ?_, ?_⟩
      · rw [hexit]; exact hc
      · rw [hatt]; omega
      · rw [hsent]; omega
      · rw [hfailed]; omega

/-- C4 counterexample: stop() invoked while the worker is inside the
pause wait and the pause flag never cleared — the worker never exits the
wait (for every poll budget), so it never reaches the Stopped terminal
state; a resume would be required first. -/
theorem c4_counterexample : StuckInPause C4ce usersW msgW 7 := by
  intro fuel
  have hW : pauseWait C4ce.pausedObs 0 fuel = none :=
    pauseWait_always_paused _ (fun _ => rfl) fuel 0
  have hexit : (run_broadcast C4ce usersW msgW 7 fuel).exit = (runLoop0 C4ce usersW fuel).2 :=
    rfl
  rw [hexit]
  show (runLoop C4ce ((resolveRecipients usersW).getLastD 0) fuel (resolveRecipients usersW)
      0 0 ⟨0, 0, 0, [], 0⟩).2 = ExitKind.fuelOut
  have hl : resolveRecipients usersW = [11, 13, 14] := rfl
  rw [hl]
  have hS : C4ce.stoppedObs 0 = some false := rfl
  simp [runLoop, hS, hW]

/-- C4 witness: a batch paused for the first three poll ticks and then
resumed completes all three recipients. -/
theorem c4_witness :
    (run_broadcast C4w usersW msgW 7 5).exit = .completed
    ∧ (run_broadcast C4w usersW msgW 7 5).attempted = (resolveRecipients usersW).length
    ∧ (run_broadcast C4w usersW msgW 7 5).sent
        = countSuccess C4w.sendOk 0 (resolveRecipients usersW).length
    ∧ (run_broadcast C4w usersW msgW 7 5).failed
        = countFail C4w.sendOk 0 (resolveRecipients usersW).length :=
  c4_pause_correctness.2 C4w usersW msgW 7 5 (fun _ => rfl) (fun _ => rfl) (by decide)

/-- C5 (amended): starting a new PRO broadcast never fails with an
already-active rejection: for EVERY prior registry state the handler
surfaces no rejection and unconditionally overwrites the operator's
entry with a fresh `wait_msg` state, discarding the in-flight batch's
`paused` / `stopped` flags. -/
theorem c5_overwrites_active_batch (reg : Option ProEntry) :
    (pro_callback_new reg).rejected = false
    ∧ (pro_callback_new reg).reg
        = some { step := "wait_msg", msg := none, paused := false, stopped := false } :=
  ⟨rfl, rfl⟩

/-- C5 counterexample: with an in-flight paused batch in the registry,
`pro:new` surfaces no rejection and replaces the entry (the stored state
changes), contradicting the claimed AlreadyActive rejection and the
claimed preservation of the in-flight control state. -/
theorem c5_counterexample :
    (pro_callback_new (some activeBatch)).rejected = false
    ∧ (pro_callback_new (some activeBatch)).reg ≠ some activeBatch := by decide

/-- C5 witness: the amended claim at the in-flight batch. -/
theorem c5_witness :
    (pro_callback_new (some activeBatch)).rejected = false
    ∧ (pro_callback_new (some activeBatch)).reg
        = some { step := "wait_msg", msg := none, paused := false, stopped := false } :=
  c5_overwrites_active_batch (some activeBatch)

/-- C6 (code bug, evaluated at the failing input): one recipient whose
send succeeds; the progress edit triggered by `uid == tg_ids[-1]` fails
(control message deleted).  The unguarded `bot.edit_message_text` raises
and the exception leaves the loop: the run ends `crashed`, NO history row
is written, the registry entry is NOT removed and no completion tally is
announced — the spec instead requires "log and continue" with the batch
still reaching its terminal transition. -/
theorem c6_edit_failure_aborts :
    (run_broadcast C6ce usersC6 msgW 7 1).exit = .crashed
    ∧ (run_broadcast C6ce usersC6 msgW 7 1).sent = 1
    ∧ (run_broadcast C6ce usersC6 msgW 7 1).history = []
    ∧ (run_broadcast C6ce usersC6 msgW 7 1).stateRemoved = false
    ∧ (run_broadcast C6ce usersC6 msgW 7 1).finalAnnounce = false := by decide

/-- C7 (amended): in the simple broadcast path, a rate R ≤ 0 requests no
delay at all, and R > 0 requests 60/R seconds after every attempt, so K
attempts request `K * 60/R ≥ (K-1) * 60/R` seconds in total.  The PRO
path does NOT follow the configured rate: its total requested inter-send
delay is the fixed 0.05 s per attempted recipient, whatever R is (see
the counterexample). -/
theorem c7_rate_discipline (users : List User) (sendOk : Nat → Bool) (rate : Int)
    (C : BCtx) (msg : Payload) (a : Int) (fuel : Nat) :
    (rate ≤ 0 → (admin_broadcast_flow users sendOk rate).totalDelay = 0)
    ∧ (0 < rate →
        (admin_broadcast_flow users sendOk rate).totalDelay
          = ((resolveRecipients users).length : ℚ) * simple_delay rate
        ∧ (((resolveRecipients users).length - 1 : ℕ) : ℚ) * simple_delay rate
            ≤ (admin_broadcast_flow users sendOk rate).totalDelay)
    ∧ (run_broadcast C users msg a fuel).delayReq
        = ((run_broadcast C users msg a fuel).attempted : ℚ) * pro_broadcast_delay := by
  have hA : (admin_broadcast_flow users sendOk rate).totalDelay
      = 0 + ((resolveRecipients users).length : ℚ) * simple_delay rate :=
    simpleLoop_totalDelay sendOk (simple_delay rate) (resolveRecipients users) 0 ⟨0, 0, 0⟩
  refine ⟨?_, ?_, run_broadcast_delayReq C users msg a fuel⟩
  · intro hr
    rw [hA]
    simp [simple_delay, hr]
  · intro _
    have hd0 : 0 ≤ simple_delay rate := by
      unfold simple_delay
      split
      · exact le_refl 0
      · next hr2 =>
        have h2 : (0 : ℚ) ≤ (rate : ℚ) := by
          have h3 : (0 : ℤ) ≤ rate := le_of_lt (not_le.mp hr2)
          exact_mod_cast h3
        exact div_nonneg (by norm_num) h2
    constructor
    · rw [hA]; ring
    · rw [hA]
      have hle : (((resolveRecipients users).length - 1 : ℕ) : ℚ)
          ≤ ((resolveRecipients users).length : ℚ) := by
        exact_mod_cast Nat.sub_le _ _
      have := mul_le_mul_of_nonneg_right hle hd0
      linarith

/-- C7 counterexample: with the default configured rate R = 20 and K = 3
recipients, the claimed bound would require at least
`(K-1) * 60/R = 2 * 3 = 6` seconds of requested delay, but the PRO
delivery loop requests only `3 * 0.05` seconds in total. -/
theorem c7_counterexample :
    (run_broadcast Cplain usersW msgW 7 1).attempted = 3
    ∧ (run_broadcast Cplain usersW msgW 7 1).delayReq = (3 : ℚ) * pro_broadcast_delay
    ∧ (3 : ℚ) * pro_broadcast_delay
        < (((resolveRecipients usersW).length - 1 : ℕ) : ℚ) * simple_delay 20 := by
  have hatt : (run_broadcast Cplain usersW msgW 7 1).attempted = 3 := by decide
  refine ⟨hatt, ?_, ?_⟩
  · rw [run_broadcast_delayReq, hatt]
    norm_num
  · have hlen : (resolveRecipients usersW).length = 3 := by decide
    rw [hlen]
    norm_num [pro_broadcast_delay, simple_delay]

/-- C7 witness: the simple path at R = 20 and R = 0, and the PRO path
delay accounting, at concrete inputs. -/
theorem c7_witness :
    (admin_broadcast_flow usersW (fun _ => true) 20).totalDelay
      = ((resolveRecipients usersW).length : ℚ) * simple_delay 20
    ∧ (((resolveRecipients usersW).length - 1 : ℕ) : ℚ) * simple_delay 20
        ≤ (admin_broadcast_flow usersW (fun _ => true) 20).totalDelay
    ∧ (admin_broadcast_flow usersW (fun _ => true) 0).totalDelay = 0
    ∧ (run_broadcast Cplain usersW msgW 7 1).delayReq
        = ((run_broadcast Cplain usersW msgW 7 1).attempted : ℚ) * pro_broadcast_delay := by
  have h20 := c7_rate_discipline usersW (fun _ => true) 20 Cplain msgW 7 1
  have h0 := c7_rate_discipline usersW (fun _ => true) 0 Cplain msgW 7 1
  obtain ⟨hx, hy⟩ := h20.2.1 (by norm_num)
  exact ⟨hx, hy, h0.1 (by norm_num), h20.2.2⟩

/-- C8 (confirmed): a batch writes at most one history row, and exactly
one on every terminal transition (completion or break); the stored
message text is `msg.text or msg.caption or ""` truncated to at most
4000 characters. -/
theorem c8_history_once (C : BCtx) (users : List User) (msg : Payload)
    (a : Int) (fuel : Nat) :
    (run_broadcast C users msg a fuel).history.length ≤ 1
    ∧ (terminalExit (run_broadcast C users msg a fuel).exit = true →
        (run_broadcast C users msg a fuel).history
          = [save_broadcast_history a msg (run_broadcast C users msg a fuel).sent
              (resolveRecipients users).length])
    ∧ ∀ rec ∈ (run_broadcast C users msg a fuel).history,
        rec.messageText = truncate4000 (textOrCaption msg)
        ∧ rec.messageText.data.length ≤ 4000 := by
  obtain ⟨hsent, _, _, _, _, hexit, hhist, _, _⟩ := run_broadcast_fields C users msg a fuel
  have hlen : (truncate4000 (textOrCaption msg)).data.length ≤ 4000 :=
    List.length_take_le _ _
  refine ⟨?_, ?_, ?_⟩
  · rw [hhist]; split <;> simp
  · intro ht
    rw [hexit] at ht
    rw [hhist, if_pos ht, hsent]
  · intro rec hrec
    rw [hhist] at hrec
    by_cases ht : terminalExit (runLoop0 C users fuel).2 = true
    · rw [if_pos ht] at hrec
      rcases List.mem_singleton.mp hrec with rfl
      exact ⟨rfl, hlen⟩
    · rw [if_neg ht] at hrec
      simp at hrec

/-- C8 witness: a completed concrete run writes exactly the one expected
history row. -/
theorem c8_witness :
    (run_broadcast Cplain usersW msgW 7 1).history.length ≤ 1
    ∧ (run_broadcast Cplain usersW msgW 7 1).history
        = [save_broadcast_history 7 msgW (run_broadcast Cplain usersW msgW 7 1).sent
            (resolveRecipients usersW).length]
    ∧ (save_broadcast_history 7 msgW (run_broadcast Cplain usersW msgW 7 1).sent
        (resolveRecipients usersW).length).messageText.data.length ≤ 4000 := by
  have h := c8_history_once Cplain usersW msgW 7 1
  refine ⟨h.1, h.2.1 (by decide), ?_⟩
  have hm := h.2.2 (save_broadcast_history 7 msgW (run_broadcast Cplain usersW msgW 7 1).sent
      (resolveRecipients usersW).length)
  exact (hm (by rw [h.2.1 (by decide)]; exact List.mem_singleton_self _)).2

/-- C9 (amended): the export answers "no records" exactly when no history
row passes the time filter; otherwise it produces the header line
followed by one CSV line per matching row, the rows sorted newest-first.
In a line, commas are replaced by spaces in `type` and `media_type`, but
`message_text` KEEPS its commas — it is wrapped in double quotes instead,
with embedded double quotes turned into single quotes and CR/LF into
spaces (see the counterexample against the claimed comma replacement). -/
theorem c9_export_shape (kind : String) (now : Int) (rows : List HRow)
    (fmt : Int → String) :
    (exportSelection kind now rows = [] → export_cb kind now rows fmt = .noRecords)
    ∧ (exportSelection kind now rows ≠ [] →
        export_cb kind now rows fmt
          = .file (csvHeader ++ nlStr
              ++ String.join ((exportSelection kind now rows).map
                  (fun r => csvRow fmt r ++ nlStr))))
    ∧ (exportSelection kind now rows).Sorted newerFirst
    ∧ (exportSelection kind now rows).Perm (rows.filter (rowMatches kind now)) := by
  refine ⟨?_, ?_, ?_, ?_⟩
  · intro h
    simp [export_cb, h]
  · intro h
    simp only [export_cb]
    rw [if_neg (fun hc => h (List.isEmpty_iff.mp hc))]
  · exact List.sorted_insertionSort newerFirst _
  · exact List.perm_insertionSort newerFirst _

/-- C9 counterexample: a row whose `message_text` is `"a,b"` is exported
with the comma intact (the code's sanitization touches quotes and
newlines only), while the claimed comma-to-space replacement would
produce `"a b"`. -/
theorem c9_counterexample :
    export_cb "all" 0 [hrowCE] fmtCE
      = .file ("id,created_at,admin_id,type,media_type,sent_count,total_users,message_text\n1,\"2025-01-01 00:00:00\",2,t,m,3,4,\"a,b\"\n")
    ∧ textSanitize "a,b" = "a,b"
    ∧ specSanitizeText "a,b" = "a b"
    ∧ textSanitize "a,b" ≠ specSanitizeText "a,b" := by decide

/-- C9 witness: the amended claim at a filter with one matching and one
non-matching row. -/
theorem c9_witness :
    export_cb "last7" 1000000 rowsW fmtCE
      = .file (csvHeader ++ nlStr
          ++ String.join ((exportSelection "last7" 1000000 rowsW).map
              (fun r => csvRow fmtCE r ++ nlStr)))
    ∧ (exportSelection "last7" 1000000 rowsW).Sorted newerFirst := by
  have h := c9_export_shape "last7" 1000000 rowsW fmtCE
  exact ⟨h.2.1 (by decide), h.2.2.1⟩

/-- C10 (confirmed): if the registry holds no entry for the operator at
the very first top-of-iteration poll, the worker attempts no sends, yet
still writes exactly one history row with `sent_count = 0` and
`total_users` the full resolved recipient count, and still announces
completion. -/
theorem c10_missing_state (C : BCtx) (users : List User) (msg : Payload)
    (a : Int) (fuel : Nat) (h0 : C.stoppedObs 0 = none) :
    (run_broadcast C users msg a fuel).attempted = 0
    ∧ (run_broadcast C users msg a fuel).sent = 0
    ∧ (run_broadcast C users msg a fuel).failed = 0
    ∧ (run_broadcast C users msg a fuel).history
        = [save_broadcast_history a msg 0 (resolveRecipients users).length]
    ∧ (run_broadcast C users msg a fuel).finalAnnounce = true := by
  obtain ⟨hsent, hfailed, hatt, _, _, _, hhist, hann, _⟩ :=
    run_broadcast_fields C users msg a fuel
  cases hl : resolveRecipients users with
  | nil =>
    have hloop : runLoop0 C users fuel = (⟨0, 0, 0, [], 0⟩, ExitKind.completed) := by
      show runLoop C ((resolveRecipients users).getLastD 0) fuel (resolveRecipients users)
          0 0 ⟨0, 0, 0, [], 0⟩ = _
      rw [hl]
      rfl
    refine ⟨?_, ?_, ?_, ?_, ?_⟩
    · rw [hatt, hloop]
    · rw [hsent, hloop]
    · rw [hfailed, hloop]
    · rw [hhist, hloop, hl]
      rfl
    · rw [hann, hloop]
      rfl
  | cons uid rest =>
    have hloop : runLoop0 C users fuel = (⟨0, 0, 0, [], 0⟩, ExitKind.broke) := by
      show runLoop C ((resolveRecipients users).getLastD 0) fuel (resolveRecipients users)
          0 0 ⟨0, 0, 0, [], 0⟩ = _
      rw [hl]
      simp [runLoop, h0]
    refine ⟨?_, ?_, ?_, ?_, ?_⟩
    · rw [hatt, hloop]
    · rw [hsent, hloop]
    · rw [hfailed, hloop]
    · rw [hhist, hloop, hl]
      rfl
    · rw [hann, hloop]
      rfl

/-- C10 witness: registry entry absent from the start (three resolved
recipients), at a concrete run. -/
theorem c10_witness :
    (run_broadcast C10w usersW msgW 7 1).attempted = 0
    ∧ (run_broadcast C10w usersW msgW 7 1).sent = 0
    ∧ (run_broadcast C10w usersW msgW 7 1).failed = 0
    ∧ (run_broadcast C10w usersW msgW 7 1).history
        = [save_broadcast_history 7 msgW 0 (resolveRecipients usersW).length]
    ∧ (run_broadcast C10w usersW msgW 7 1).finalAnnounce = true :=
  c10_missing_state C10w usersW msgW 7 1 rfl

end Broadcast
